import Mathlib

/-!
Verification of the classification scheduling and arbitration engine of the
`Committed` extension (sources: `src/models/classifyDiff.ts` and
`src/models/scheduler.ts`).

JavaScript strings are modelled as lists of characters (`Str`); all text
handled here is ASCII, so this is faithful.  JavaScript numbers (the
classifier confidences) are modelled as rationals.  The external SHA-256
hash is modelled as an abstract function parameter `hash : Str → Str`: every
property proved below depends only on it being a deterministic function,
never on collision resistance.
-/

namespace Committed

abbrev Str := List Char

/-- JS `a.startsWith(b)`. -/
def startsWithStr (s pre : Str) : Bool := List.isPrefixOf pre s

/-- JS `s.includes(pat)` (substring containment). -/
def containsStr : Str → Str → Bool
  | [], pat => pat.isEmpty
  | s@(_ :: rest), pat => List.isPrefixOf pat s || containsStr rest pat

/-- JS `s.trim()`: strip leading and trailing whitespace. -/
def trimStr (s : Str) : Str :=
  ((s.dropWhile Char.isWhitespace).reverse.dropWhile Char.isWhitespace).reverse

/-- Accumulator version of JS `s.split("\n")`. -/
def splitLinesAux : Str → Str → List Str
  | acc, [] => [acc.reverse]
  | acc, c :: cs =>
    if c = '\n' then acc.reverse :: splitLinesAux [] cs
    else splitLinesAux (c :: acc) cs

/-- JS `s.split("\n")`. -/
def splitLines (s : Str) : List Str := splitLinesAux [] s

/-- JS `lines.join("\n")`. -/
def joinLines (lines : List Str) : Str := List.intercalate ['\n'] lines

/-- The sentinel returned by `preprocessDiff` for binary changes
(`classifyDiff.ts` line 23). -/
def binarySentinel : Str := "[BINARY FILE CHANGES OMITTED]".data

/-- The per-line loop body of `preprocessDiff` (`classifyDiff.ts` lines
19–27): skip `index ` lines, short-circuit (`none`) on a binary marker,
keep everything else. -/
def preprocessLines : List Str → Option (List Str)
  | [] => some []
  | line :: rest =>
    if startsWithStr line "index ".data then preprocessLines rest
    else if startsWithStr line "GIT binary patch".data || containsStr line "Binary files".data then
      none
    else (preprocessLines rest).map (line :: ·)

/-- `preprocessDiff` from `classifyDiff.ts` lines 13–30. -/
def preprocessDiff (rawDiff : Str) : Str :=
  if (trimStr rawDiff).isEmpty then []
  else
    match preprocessLines (splitLines rawDiff) with
    | none => binarySentinel
    | some cleanedLines => trimStr (joinLines cleanedLines)

/-! ## Classifier calls (`classifyDiff.ts`) -/

/-- The structured outcome of one classifier call, i.e. the record validated
by `ClassifierSchema` (`classifyDiff.ts` lines 4–8).  `confidence` is a JS
number, modelled as a rational. -/
structure ClassifierResult where
  reasoning : Str
  result : Bool
  confidence : ℚ
  deriving DecidableEq, Repr

/-- A parsed JSON value, as produced by `JSON.parse` on the model response.
Only the shapes `ClassifierSchema` inspects are distinguished. -/
inductive JsonVal : Type
  | str (s : Str)
  | num (q : ℚ)
  | bool (b : Bool)
  | null
  | arr (elems : List JsonVal)
  | obj (fields : List (Str × JsonVal))

/-- JS object field lookup (first binding wins, as in a parsed JSON object). -/
def lookupField (fields : List (Str × JsonVal)) (key : Str) : Option JsonVal :=
  match fields with
  | [] => none
  | (k, v) :: rest => if k = key then some v else lookupField rest key

/-- `ClassifierSchema.parse` (`classifyDiff.ts` lines 4–8): an object with a
string `reasoning`, a boolean `result`, and a numeric `confidence` within
`[0, 1]` (`z.number().min(0).max(1)`); anything else throws, modelled as
`none`. -/
def classifierSchemaParse : JsonVal → Option ClassifierResult
  | .obj fields =>
    match lookupField fields "reasoning".data,
          lookupField fields "result".data,
          lookupField fields "confidence".data with
    | some (.str reasoning), some (.bool result), some (.num confidence) =>
      if 0 ≤ confidence ∧ confidence ≤ 1 then
        some { reasoning := reasoning, result := result, confidence := confidence }
      else none
    | _, _, _ => none
  | _ => none

/-- The degraded default returned by the `catch` branch of `runClassifier`
(`classifyDiff.ts` lines 161–165). -/
def parseFailureDefault : ClassifierResult :=
  { reasoning := "Failed to parse LLM output.".data, result := false, confidence := 0 }

/-- The `try`/`catch` tail of `runClassifier` (`classifyDiff.ts` lines
156–166).  `response` is the model's textual reply after `JSON.parse`:
`none` when `JSON.parse` throws, `some v` when it yields the value `v`.
A parse or schema failure is caught and replaced by `parseFailureDefault`;
it is never re-thrown. -/
def runClassifier (response : Option JsonVal) : ClassifierResult :=
  match response >>= classifierSchemaParse with
  | some parsed => parsed
  | none => parseFailureDefault

/-- `classifyAsBugFix` (`classifyDiff.ts` lines 169–175): delegates to
`runClassifier`; the prompt does not affect how the response is handled. -/
def classifyAsBugFix (response : Option JsonVal) : ClassifierResult :=
  runClassifier response

/-- `classifyAsFeature` (`classifyDiff.ts` lines 177–183). -/
def classifyAsFeature (response : Option JsonVal) : ClassifierResult :=
  runClassifier response

/-- `classifyAsRefactoring` (`classifyDiff.ts` lines 185–191). -/
def classifyAsRefactoring (response : Option JsonVal) : ClassifierResult :=
  runClassifier response

/-- One whole classifier call as the scheduler sees it.  `generated` is the
outcome of `await ollama.generate(...)` (`classifyDiff.ts` line 144), which
sits *outside* the `try`: a rejection (`.error`) propagates to the caller,
while a fulfilled response goes through `runClassifier`. -/
def classifierPortCall (generated : Except Unit (Option JsonVal)) :
    Except Unit ClassifierResult :=
  match generated with
  | .error e => .error e
  | .ok response => .ok (runClassifier response)

/-! ## Arbitration (`scheduler.ts` lines 106–118) -/

/-- The four labels of `FinalClassification` (`scheduler.ts` line 7). -/
inductive Label : Type
  | bugFix
  | feature
  | refactor
  | unclear
  deriving DecidableEq, Repr

/-- Position of a category in the fixed precedence order
Bug Fix > Feature > Refactor (the order of the `candidates` array,
`scheduler.ts` lines 106–110). -/
def precIdx : Label → Nat
  | .bugFix => 0
  | .feature => 1
  | .refactor => 2
  | .unclear => 3

/-- One element of the `candidates` array (`scheduler.ts` lines 106–110):
a classifier outcome tagged with its category label. -/
structure Candidate where
  label : Label
  reasoning : Str
  result : Bool
  confidence : ℚ
  deriving DecidableEq, Repr

/-- `FinalClassification` (`scheduler.ts` lines 6–11).  The code always sets
`reasoning` from the winning candidate, so it is modelled as present. -/
structure FinalClassification where
  label : Label
  confidence : ℚ
  reasoning : Str
  deriving DecidableEq, Repr

/-- Stable insertion of one element into a list sorted by decreasing
confidence: the inserted element goes *before* the first element of equal or
lower confidence, matching the stable behaviour of
`sort((a, b) => b.confidence - a.confidence)` for elements that precede it
in the original array. -/
def insertDesc (x : Candidate) : List Candidate → List Candidate
  | [] => [x]
  | y :: ys => if y.confidence ≤ x.confidence then x :: y :: ys else y :: insertDesc x ys

/-- Stable sort by decreasing confidence; `Array.prototype.sort` is
guaranteed stable (ES2019), so equal-confidence elements keep array order. -/
def sortDesc : List Candidate → List Candidate
  | [] => []
  | x :: xs => insertDesc x (sortDesc xs)

/-- Tags a classifier outcome with its category (the spreads at
`scheduler.ts` lines 107–109). -/
def tagged (label : Label) (r : ClassifierResult) : Candidate :=
  { label := label, reasoning := r.reasoning, result := r.result, confidence := r.confidence }

/-- The `candidates` array (`scheduler.ts` lines 106–110). -/
def candidatesOf (bug feat ref : ClassifierResult) : List Candidate :=
  [tagged .bugFix bug, tagged .feature feat, tagged .refactor ref]

/-- `candidates.filter((c) => c.result === true)` (`scheduler.ts` line 112). -/
def trueOnesOf (bug feat ref : ClassifierResult) : List Candidate :=
  (candidatesOf bug feat ref).filter (·.result)

/-- The decision logic of the trigger cycle (`scheduler.ts` lines 106–118):
sort the true candidates (or, if none, all candidates) by decreasing
confidence and take the first; label `Unclear` when no candidate was true.
The empty match arm is unreachable: `candidates` always has three
elements. -/
def arbitrate (bug feat ref : ClassifierResult) : FinalClassification :=
  let trueOnes := trueOnesOf bug feat ref
  let pool := if trueOnes.isEmpty then candidatesOf bug feat ref else trueOnes
  match sortDesc pool with
  | [] => { label := .unclear, confidence := 0, reasoning := [] }
  | best :: _ =>
    if trueOnes.isEmpty then
      { label := .unclear, confidence := best.confidence, reasoning := best.reasoning }
    else
      { label := best.label, confidence := best.confidence, reasoning := best.reasoning }

/-- The earlier of two candidates unless the later one has strictly higher
confidence (what a stable descending sort places first). -/
def top2 (a b : Candidate) : Candidate :=
  if b.confidence ≤ a.confidence then a else b

/-- The first of three candidates achieving the maximal confidence. -/
def top3 (a b c : Candidate) : Candidate := top2 a (top2 b c)

/-! ## One classification cycle (`scheduler.ts` lines 64–129) -/

/-- `getWorkingDiffText` (`scheduler.ts` lines 64–80): no workspace folder
yields `""`; an `execFile` error resolves to `""` (line 73); otherwise the
command's stdout is returned. -/
def getWorkingDiffText (folder : Option Unit) (gitDiff : Except Unit Str) : Str :=
  match folder with
  | none => []
  | some _ =>
    match gitDiff with
    | .error _ => []
    | .ok stdout => stdout

/-- `Promise.all` over the three classifier calls (`scheduler.ts` lines
99–103): fulfils with all three results when every promise fulfils, and
rejects as soon as any one rejects (the others' results are discarded). -/
def promiseAll3 {α β γ : Type} :
    Except Unit α → Except Unit β → Except Unit γ → Except Unit (α × β × γ)
  | .error e, _, _ => .error e
  | .ok _, .error e, _ => .error e
  | .ok _, .ok _, .error e => .error e
  | .ok a, .ok b, .ok c => .ok (a, b, c)

/-- How one cycle body ends: an early `return` without publishing (empty
input or fingerprint match), a publication, or a thrown error (the body has
no `catch`, so a rejection of `Promise.all` propagates to the caller of
`trigger`). -/
inductive CycleOutcome : Type
  | noop
  | published (result : FinalClassification)
  | failed
  deriving DecidableEq, Repr

/-- The body of one classification cycle (`scheduler.ts` lines 88–121),
as a function of the cross-cycle state it reads and writes.
`hash` models `sha256`; `last` is `this.lastFingerprint` on entry; `raw` is
the fetched diff text; `genBug`, `genFeat`, `genRef` are the settled
outcomes of the three classifier calls' `ollama.generate` steps.
Returns the value of `lastFingerprint` on exit and how the cycle ended.
Note the order in the source: `lastFingerprint` is assigned (line 96)
*before* the fan-out (line 99), so a fan-out rejection leaves the new
fingerprint in place. -/
def runCycle (hash : Str → Str) (last : Option Str) (raw : Str)
    (genBug genFeat genRef : Except Unit (Option JsonVal)) :
    Option Str × CycleOutcome :=
  let cleaned := preprocessDiff raw
  if (trimStr cleaned).isEmpty then (last, .noop)
  else
    let fp := hash cleaned
    if some fp = last then (last, .noop)
    else
      match promiseAll3 (classifierPortCall genBug) (classifierPortCall genFeat)
          (classifierPortCall genRef) with
      | .error _ => (some fp, .failed)
      | .ok (bug, feat, ref) => (some fp, .published (arbitrate bug feat ref))

/-- Number of `publish` calls a cycle outcome performs (0 or 1). -/
def publishCount : CycleOutcome → Nat
  | .published _ => 1
  | _ => 0

/-! ## Single-flight coalescing (`scheduler.ts` lines 82–132)

The scheduler runs on a single-threaded event loop; the synchronous prefix
of `trigger` (the `this.running` check and flag updates, lines 83–86) and
the `finally` block (lines 122–128) are the only points that touch the
shared `running`/`pending` state, so the whole behaviour is captured by a
state machine over those two fields driven by two events: a `trigger` call
arriving, and the running cycle's body completing. -/

/-- The cross-call scheduler state: `inFlight` counts cycles currently
running (the code's `this.running` handle, present or absent), `pending`
is `this.pending`. -/
structure SchedState where
  inFlight : Nat
  pending : Bool
  deriving DecidableEq, Repr

/-- Events driving the scheduler: an external `trigger()` call, or the
completion (success, no-op, or failure) of the running cycle's body. -/
inductive SchedEv : Type
  | trigger
  | complete
  deriving DecidableEq, Repr

/-- One event step.  Returns the new state and how many new cycles were
started by this event.
`trigger` (`scheduler.ts` lines 82–88): if a cycle is running, only set
`pending` and return; otherwise start a cycle.
`complete` (the `finally` block, lines 122–128): clear `running`; if
`pending` is set, clear it and re-enter `trigger`, which — `running` now
being empty — starts exactly one cycle.  A `complete` with nothing in
flight cannot arise from the code and is a no-op here. -/
def stepSched (s : SchedState) : SchedEv → SchedState × Nat
  | .trigger =>
    if s.inFlight = 0 then ({ inFlight := s.inFlight + 1, pending := s.pending }, 1)
    else ({ s with pending := true }, 0)
  | .complete =>
    if s.inFlight = 0 then (s, 0)
    else
      let after := s.inFlight - 1
      if s.pending then ({ inFlight := after + 1, pending := false }, 1)
      else ({ inFlight := after, pending := s.pending }, 0)

/-- Run a sequence of events, accumulating the number of cycles started. -/
def runSched (s : SchedState) : List SchedEv → SchedState × Nat
  | [] => (s, 0)
  | ev :: evs =>
    let (s1, n1) := stepSched s ev
    let (s2, n2) := runSched s1 evs
    (s2, n1 + n2)

/-! ## Helper lemmas -/

theorem schemaParse_bounds {v : JsonVal} {r : ClassifierResult}
    (h : classifierSchemaParse v = some r) : 0 ≤ r.confidence ∧ r.confidence ≤ 1 := by
  unfold classifierSchemaParse at h
  split at h
  · split at h
    · split at h
      · obtain rfl : _ = r := Option.some.inj h
        assumption
      · exact absurd h (by simp)
    · exact absurd h (by simp)
  · exact absurd h (by simp)

theorem stepSched_inFlight_le {s : SchedState} (h : s.inFlight ≤ 1) (ev : SchedEv) :
    (stepSched s ev).1.inFlight ≤ 1 := by
  cases ev <;> unfold stepSched <;> split_ifs <;> simp_all

theorem runSched_inFlight_le {s : SchedState} (h : s.inFlight ≤ 1) (evs : List SchedEv) :
    (runSched s evs).1.inFlight ≤ 1 := by
  induction evs generalizing s with
  | nil => exact h
  | cons ev evs ih =>
    simp only [runSched]
    exact ih (stepSched_inFlight_le h ev)

theorem runSched_busy_triggers (n : Nat) :
    runSched ⟨1, true⟩ (List.replicate n .trigger ++ [.complete]) = (⟨1, false⟩, 1) := by
  induction n with
  | zero => rfl
  | succ n ih =>
    simp only [List.replicate_succ, List.cons_append, runSched, stepSched]
    simpa using ih

theorem top2_spec (a b : Candidate) :
    (b.confidence ≤ a.confidence ∧ top2 a b = a) ∨
    (a.confidence < b.confidence ∧ top2 a b = b) := by
  unfold top2
  split_ifs with h
  · exact Or.inl ⟨h, rfl⟩
  · exact Or.inr ⟨by linarith, rfl⟩

theorem top3_spec (a b c : Candidate) :
    (b.confidence ≤ a.confidence ∧ c.confidence ≤ a.confidence ∧ top3 a b c = a) ∨
    (a.confidence < b.confidence ∧ c.confidence ≤ b.confidence ∧ top3 a b c = b) ∨
    (a.confidence < c.confidence ∧ b.confidence < c.confidence ∧ top3 a b c = c) := by
  unfold top3 top2
  split_ifs with h1 h2 h2
  · exact Or.inl ⟨h2, by linarith, rfl⟩
  · exact Or.inr (Or.inl ⟨by linarith, h1, rfl⟩)
  · exact Or.inl ⟨by linarith, h2, rfl⟩
  · exact Or.inr (Or.inr ⟨by linarith, by linarith, rfl⟩)

theorem sortDesc_two (a b : Candidate) : ∃ rest, sortDesc [a, b] = top2 a b :: rest := by
  by_cases hba : b.confidence ≤ a.confidence
  · exact ⟨[b], by simp [sortDesc, insertDesc, top2, hba]⟩
  · exact ⟨[a], by simp [sortDesc, insertDesc, top2, hba]⟩

theorem sortDesc_three (a b c : Candidate) :
    ∃ rest, sortDesc [a, b, c] = top3 a b c :: rest := by
  by_cases hcb : c.confidence ≤ b.confidence
  · by_cases hba : b.confidence ≤ a.confidence
    · exact ⟨[b, c], by simp [sortDesc, insertDesc, top3, top2, hcb, hba]⟩
    · by_cases hca : c.confidence ≤ a.confidence
      · exact ⟨[a, c], by simp [sortDesc, insertDesc, top3, top2, hcb, hba, hca]⟩
      · exact ⟨[c, a], by simp [sortDesc, insertDesc, top3, top2, hcb, hba, hca]⟩
  · by_cases hca : c.confidence ≤ a.confidence
    · exact ⟨[c, b], by simp [sortDesc, insertDesc, top3, top2, hcb, hca]⟩
    · by_cases hba : b.confidence ≤ a.confidence
      · exact ⟨[a, b], by simp [sortDesc, insertDesc, top3, top2, hcb, hca, hba]⟩
      · exact ⟨[b, a], by simp [sortDesc, insertDesc, top3, top2, hcb, hca, hba]⟩

theorem arbitrate_trueOnes_one {bug feat ref : ClassifierResult} {A : Candidate}
    (h : trueOnesOf bug feat ref = [A]) :
    arbitrate bug feat ref = ⟨A.label, A.confidence, A.reasoning⟩ := by
  simp [arbitrate, h, sortDesc, insertDesc]

theorem arbitrate_trueOnes_two {bug feat ref : ClassifierResult} {A B : Candidate}
    (h : trueOnesOf bug feat ref = [A, B]) :
    arbitrate bug feat ref =
      ⟨(top2 A B).label, (top2 A B).confidence, (top2 A B).reasoning⟩ := by
  obtain ⟨rest, hsort⟩ := sortDesc_two A B
  simp [arbitrate, h, hsort]

theorem arbitrate_trueOnes_all {bug feat ref : ClassifierResult} {A B C : Candidate}
    (h : trueOnesOf bug feat ref = [A, B, C]) :
    arbitrate bug feat ref =
      ⟨(top3 A B C).label, (top3 A B C).confidence, (top3 A B C).reasoning⟩ := by
  obtain ⟨rest, hsort⟩ := sortDesc_three A B C
  simp [arbitrate, h, hsort]

theorem arbitrate_trueOnes_none {bug feat ref : ClassifierResult}
    (h : trueOnesOf bug feat ref = []) :
    arbitrate bug feat ref =
      ⟨.unclear,
       (top3 (tagged .bugFix bug) (tagged .feature feat) (tagged .refactor ref)).confidence,
       (top3 (tagged .bugFix bug) (tagged .feature feat) (tagged .refactor ref)).reasoning⟩ := by
  obtain ⟨rest, hsort⟩ :=
    sortDesc_three (tagged .bugFix bug) (tagged .feature feat) (tagged .refactor ref)
  simp [arbitrate, h, candidatesOf, hsort]

theorem top2_pick (A B : Candidate) (hp : precIdx A.label ≤ precIdx B.label) :
    top2 A B ∈ [A, B] ∧
    (∀ c ∈ [A, B], c.confidence ≤ (top2 A B).confidence) ∧
    (∀ c ∈ [A, B], c.confidence = (top2 A B).confidence →
      precIdx (top2 A B).label ≤ precIdx c.label) := by
  rcases top2_spec A B with ⟨h1, heq⟩ | ⟨h1, heq⟩ <;> rw [heq]
  · refine ⟨by simp, ?_, ?_⟩
    · intro c hc
      rcases (by simpa using hc : c = A ∨ c = B) with rfl | rfl
      · exact le_refl _
      · exact h1
    · intro c hc hconf
      rcases (by simpa using hc : c = A ∨ c = B) with rfl | rfl
      · exact le_refl _
      · exact hp
  · refine ⟨by simp, ?_, ?_⟩
    · intro c hc
      rcases (by simpa using hc : c = A ∨ c = B) with rfl | rfl
      · linarith
      · exact le_refl _
    · intro c hc hconf
      rcases (by simpa using hc : c = A ∨ c = B) with rfl | rfl
      · exact absurd hconf (by exact ne_of_lt h1)
      · exact le_refl _

theorem top3_pick (A B C : Candidate)
    (hpAB : precIdx A.label ≤ precIdx B.label) (hpAC : precIdx A.label ≤ precIdx C.label)
    (hpBC : precIdx B.label ≤ precIdx C.label) :
    top3 A B C ∈ [A, B, C] ∧
    (∀ c ∈ [A, B, C], c.confidence ≤ (top3 A B C).confidence) ∧
    (∀ c ∈ [A, B, C], c.confidence = (top3 A B C).confidence →
      precIdx (top3 A B C).label ≤ precIdx c.label) := by
  rcases top3_spec A B C with ⟨h1, h2, heq⟩ | ⟨h1, h2, heq⟩ | ⟨h1, h2, heq⟩ <;> rw [heq]
  · refine ⟨by simp, ?_, ?_⟩
    · intro c hc
      rcases (by simpa using hc : c = A ∨ c = B ∨ c = C) with rfl | rfl | rfl
      · exact le_refl _
      · exact h1
      · exact h2
    · intro c hc hconf
      rcases (by simpa using hc : c = A ∨ c = B ∨ c = C) with rfl | rfl | rfl
      · exact le_refl _
      · exact hpAB
      · exact hpAC
  · refine ⟨by simp, ?_, ?_⟩
    · intro c hc
      rcases (by simpa using hc : c = A ∨ c = B ∨ c = C) with rfl | rfl | rfl
      · linarith
      · exact le_refl _
      · exact h2
    · intro c hc hconf
      rcases (by simpa using hc : c = A ∨ c = B ∨ c = C) with rfl | rfl | rfl
      · exact absurd hconf (by exact ne_of_lt h1)
      · exact le_refl _
      · exact hpBC
  · refine ⟨by simp, ?_, ?_⟩
    · intro c hc
      rcases (by simpa using hc : c = A ∨ c = B ∨ c = C) with rfl | rfl | rfl
      · linarith
      · linarith
      · exact le_refl _
    · intro c hc hconf
      rcases (by simpa using hc : c = A ∨ c = B ∨ c = C) with rfl | rfl | rfl
      · exact absurd hconf (by exact ne_of_lt h1)
      · exact absurd hconf (by exact ne_of_lt h2)
      · exact le_refl _

theorem startsWith_subset {line pat : Str} (h : startsWithStr line pat = true) :
    ∀ c ∈ pat, c ∈ line := by
  have hpre : pat <+: line := by simpa [startsWithStr, ← List.isPrefixOf_iff_prefix] using h
  exact fun c hc => hpre.sublist.subset hc

theorem containsStr_subset {s pat : Str} (h : containsStr s pat = true) :
    ∀ c ∈ pat, c ∈ s := by
  induction s with
  | nil =>
    intro c hc
    simp only [containsStr, List.isEmpty_iff] at h
    subst h
    cases hc
  | cons a rest ih =>
    intro c hc
    simp only [containsStr, Bool.or_eq_true] at h
    rcases h with h | h
    · have hpre : pat <+: a :: rest := by simpa [← List.isPrefixOf_iff_prefix] using h
      exact hpre.sublist.subset hc
    · exact List.mem_cons_of_mem _ (ih h c hc)

theorem splitLinesAux_chars (c : Char) :
    ∀ (s acc l : Str), l ∈ splitLinesAux acc s → c ∈ l → c ∈ acc ∨ c ∈ s := by
  intro s
  induction s with
  | nil =>
    intro acc l hl hc
    simp only [splitLinesAux, List.mem_singleton] at hl
    subst hl
    exact Or.inl (by simpa using hc)
  | cons d ds ih =>
    intro acc l hl hc
    simp only [splitLinesAux] at hl
    by_cases hd : d = '\n'
    · rw [if_pos hd] at hl
      rcases List.mem_cons.mp hl with rfl | hl2
      · exact Or.inl (by simpa using hc)
      · rcases ih [] l hl2 hc with h | h
        · cases h
        · exact Or.inr (List.mem_cons_of_mem d h)
    · rw [if_neg hd] at hl
      rcases ih (d :: acc) l hl hc with h | h
      · rcases List.mem_cons.mp h with rfl | h2
        · exact Or.inr (List.mem_cons_self c ds)
        · exact Or.inl h2
      · exact Or.inr (List.mem_cons_of_mem d h)

theorem trimStr_nonempty {s : Str} {c : Char} (hc : c ∈ s) (hw : c.isWhitespace = false) :
    (trimStr s).isEmpty = false := by
  rcases he : (trimStr s).isEmpty with _ | _
  · rfl
  · exfalso
    have hnil : trimStr s = [] := List.isEmpty_iff.mp he
    have h1 : (s.dropWhile Char.isWhitespace).reverse.dropWhile Char.isWhitespace = [] := by
      have := congrArg List.reverse hnil
      simpa [trimStr] using this
    have h2 : ∀ x ∈ (s.dropWhile Char.isWhitespace).reverse, x.isWhitespace :=
      List.dropWhile_eq_nil_iff.mp h1
    have h3 : ∀ x ∈ s.dropWhile Char.isWhitespace, x.isWhitespace := fun x hx =>
      h2 x (List.mem_reverse.mpr hx)
    have h4 : c.isWhitespace = true := by
      rw [← List.takeWhile_append_dropWhile Char.isWhitespace s] at hc
      rcases List.mem_append.mp hc with h | h
      · exact List.mem_takeWhile_imp h
      · exact h3 c h
    rw [h4] at hw
    cases hw

theorem preprocessLines_of_marker {lines : List Str} {line : Str} (hmem : line ∈ lines)
    (hidx : startsWithStr line "index ".data = false)
    (hbin : (startsWithStr line "GIT binary patch".data ||
             containsStr line "Binary files".data) = true) :
    preprocessLines lines = none := by
  induction lines with
  | nil => cases hmem
  | cons l rest ih =>
    rcases List.mem_cons.mp hmem with rfl | hmem2
    · simp [preprocessLines, hidx, hbin]
    · by_cases hl : startsWithStr l "index ".data = true
      · simp [preprocessLines, hl, ih hmem2]
      · by_cases hlb : (startsWithStr l "GIT binary patch".data ||
            containsStr l "Binary files".data) = true
        · simp [preprocessLines, hl, hlb]
        · simp [preprocessLines, hl, hlb, ih hmem2]

theorem runCycle_publishes {hash : Str → Str} {last : Option Str} {raw : Str}
    (rb rf rr : Option JsonVal)
    (hne : (trimStr (preprocessDiff raw)).isEmpty = false)
    (hfp : some (hash (preprocessDiff raw)) ≠ last) :
    runCycle hash last raw (.ok rb) (.ok rf) (.ok rr) =
      (some (hash (preprocessDiff raw)),
       .published (arbitrate (runClassifier rb) (runClassifier rf) (runClassifier rr))) := by
  simp only [runCycle]
  rw [if_neg (by simp [hne]), if_neg hfp]
  rfl

theorem runCycle_fails {hash : Str → Str} {last : Option Str} {raw : Str}
    {genBug genFeat genRef : Except Unit (Option JsonVal)}
    (hne : (trimStr (preprocessDiff raw)).isEmpty = false)
    (hfp : some (hash (preprocessDiff raw)) ≠ last)
    (h : genBug = .error () ∨ genFeat = .error () ∨ genRef = .error ()) :
    runCycle hash last raw genBug genFeat genRef =
      (some (hash (preprocessDiff raw)), .failed) := by
  simp only [runCycle]
  rw [if_neg (by simp [hne]), if_neg hfp]
  rcases h with rfl | rfl | rfl
  · rfl
  · cases genBug with
    | error e => rfl
    | ok rb => rfl
  · cases genBug with
    | error e => rfl
    | ok rb =>
      cases genFeat with
      | error e => rfl
      | ok rf => rfl

theorem runCycle_dedup {hash : Str → Str} {last : Option Str} {raw : Str}
    (gb gf gr : Except Unit (Option JsonVal))
    (hfp : some (hash (preprocessDiff raw)) = last) :
    runCycle hash last raw gb gf gr = (last, .noop) := by
  simp only [runCycle]
  by_cases hne : (trimStr (preprocessDiff raw)).isEmpty = true
  · rw [if_pos hne]
  · rw [if_neg hne, if_pos hfp]

theorem runCycle_fp_set {hash : Str → Str} {last : Option Str} {raw : Str}
    (gb gf gr : Except Unit (Option JsonVal))
    (hne : (trimStr (preprocessDiff raw)).isEmpty = false)
    (hfp : some (hash (preprocessDiff raw)) ≠ last) :
    (runCycle hash last raw gb gf gr).1 = some (hash (preprocessDiff raw)) := by
  simp only [runCycle]
  rw [if_neg (by simp [hne]), if_neg hfp]
  split <;> rfl

/-! ## Claims -/

/-- C1: when at least one classifier outcome has verdict `true`, the
arbitration result copies label, confidence and reasoning from a
true-verdict candidate that has the highest confidence among all
true-verdict candidates, and that precedes every equal-confidence true
candidate in the fixed precedence order Bug Fix > Feature > Refactor. -/
theorem arbitration_true_best_wins (bug feat ref : ClassifierResult)
    (h : bug.result = true ∨ feat.result = true ∨ ref.result = true) :
    ∃ w ∈ trueOnesOf bug feat ref,
      arbitrate bug feat ref = ⟨w.label, w.confidence, w.reasoning⟩ ∧
      (∀ c ∈ trueOnesOf bug feat ref, c.confidence ≤ w.confidence) ∧
      (∀ c ∈ trueOnesOf bug feat ref, c.confidence = w.confidence →
        precIdx w.label ≤ precIdx c.label) := by
  cases hbug : bug.result <;> cases hfeat : feat.result <;> cases href : ref.result
  · simp [hbug, hfeat, href] at h
  · -- only Refactor true
    have ht : trueOnesOf bug feat ref = [tagged .refactor ref] := by
      simp [trueOnesOf, candidatesOf, tagged, hbug, hfeat, href]
    refine ⟨tagged .refactor ref, by rw [ht]; simp, arbitrate_trueOnes_one ht, ?_, ?_⟩
    · intro c hc
      rw [ht] at hc
      rcases (by simpa using hc : c = tagged .refactor ref) with rfl
      exact le_refl _
    · intro c hc _
      rw [ht] at hc
      rcases (by simpa using hc : c = tagged .refactor ref) with rfl
      exact le_refl _
  · -- only Feature true
    have ht : trueOnesOf bug feat ref = [tagged .feature feat] := by
      simp [trueOnesOf, candidatesOf, tagged, hbug, hfeat, href]
    refine ⟨tagged .feature feat, by rw [ht]; simp, arbitrate_trueOnes_one ht, ?_, ?_⟩
    · intro c hc
      rw [ht] at hc
      rcases (by simpa using hc : c = tagged .feature feat) with rfl
      exact le_refl _
    · intro c hc _
      rw [ht] at hc
      rcases (by simpa using hc : c = tagged .feature feat) with rfl
      exact le_refl _
  · -- Feature and Refactor true
    have ht : trueOnesOf bug feat ref = [tagged .feature feat, tagged .refactor ref] := by
      simp [trueOnesOf, candidatesOf, tagged, hbug, hfeat, href]
    obtain ⟨hmem, hmax, htie⟩ :=
      top2_pick (tagged .feature feat) (tagged .refactor ref) (by norm_num [tagged, precIdx])
    refine ⟨top2 (tagged .feature feat) (tagged .refactor ref), by rw [ht]; exact hmem,
      arbitrate_trueOnes_two ht, ?_, ?_⟩
    · intro c hc
      rw [ht] at hc
      exact hmax c hc
    · intro c hc
      rw [ht] at hc
      exact htie c hc
  · -- only Bug Fix true
    have ht : trueOnesOf bug feat ref = [tagged .bugFix bug] := by
      simp [trueOnesOf, candidatesOf, tagged, hbug, hfeat, href]
    refine ⟨tagged .bugFix bug, by rw [ht]; simp, arbitrate_trueOnes_one ht, ?_, ?_⟩
    · intro c hc
      rw [ht] at hc
      rcases (by simpa using hc : c = tagged .bugFix bug) with rfl
      exact le_refl _
    · intro c hc _
      rw [ht] at hc
      rcases (by simpa using hc : c = tagged .bugFix bug) with rfl
      exact le_refl _
  · -- Bug Fix and Refactor true
    have ht : trueOnesOf bug feat ref = [tagged .bugFix bug, tagged .refactor ref] := by
      simp [trueOnesOf, candidatesOf, tagged, hbug, hfeat, href]
    obtain ⟨hmem, hmax, htie⟩ :=
      top2_pick (tagged .bugFix bug) (tagged .refactor ref) (by norm_num [tagged, precIdx])
    refine ⟨top2 (tagged .bugFix bug) (tagged .refactor ref), by rw [ht]; exact hmem,
      arbitrate_trueOnes_two ht, ?_, ?_⟩
    · intro c hc
      rw [ht] at hc
      exact hmax c hc
    · intro c hc
      rw [ht] at hc
      exact htie c hc
  · -- Bug Fix and Feature true
    have ht : trueOnesOf bug feat ref = [tagged .bugFix bug, tagged .feature feat] := by
      simp [trueOnesOf, candidatesOf, tagged, hbug, hfeat, href]
    obtain ⟨hmem, hmax, htie⟩ :=
      top2_pick (tagged .bugFix bug) (tagged .feature feat) (by norm_num [tagged, precIdx])
    refine ⟨top2 (tagged .bugFix bug) (tagged .feature feat), by rw [ht]; exact hmem,
      arbitrate_trueOnes_two ht, ?_, ?_⟩
    · intro c hc
      rw [ht] at hc
      exact hmax c hc
    · intro c hc
      rw [ht] at hc
      exact htie c hc
  · -- all three true
    have ht : trueOnesOf bug feat ref =
        [tagged .bugFix bug, tagged .feature feat, tagged .refactor ref] := by
      simp [trueOnesOf, candidatesOf, tagged, hbug, hfeat, href]
    obtain ⟨hmem, hmax, htie⟩ :=
      top3_pick (tagged .bugFix bug) (tagged .feature feat) (tagged .refactor ref)
        (by norm_num [tagged, precIdx]) (by norm_num [tagged, precIdx])
        (by norm_num [tagged, precIdx])
    refine ⟨top3 (tagged .bugFix bug) (tagged .feature feat) (tagged .refactor ref),
      by rw [ht]; exact hmem, arbitrate_trueOnes_all ht, ?_, ?_⟩
    · intro c hc
      rw [ht] at hc
      exact hmax c hc
    · intro c hc
      rw [ht] at hc
      exact htie c hc

theorem arbitration_true_best_wins_witness :
    ∃ w ∈ trueOnesOf ⟨"fixes an off-by-one".data, true, 0.95⟩
        ⟨"no new capability".data, false, 0.9⟩ ⟨"not a restructuring".data, false, 0.9⟩,
      arbitrate ⟨"fixes an off-by-one".data, true, 0.95⟩
          ⟨"no new capability".data, false, 0.9⟩ ⟨"not a restructuring".data, false, 0.9⟩ =
        ⟨w.label, w.confidence, w.reasoning⟩ ∧
      (∀ c ∈ trueOnesOf ⟨"fixes an off-by-one".data, true, 0.95⟩
          ⟨"no new capability".data, false, 0.9⟩ ⟨"not a restructuring".data, false, 0.9⟩,
        c.confidence ≤ w.confidence) ∧
      (∀ c ∈ trueOnesOf ⟨"fixes an off-by-one".data, true, 0.95⟩
          ⟨"no new capability".data, false, 0.9⟩ ⟨"not a restructuring".data, false, 0.9⟩,
        c.confidence = w.confidence → precIdx w.label ≤ precIdx c.label) :=
  arbitration_true_best_wins ⟨"fixes an off-by-one".data, true, 0.95⟩
    ⟨"no new capability".data, false, 0.9⟩ ⟨"not a restructuring".data, false, 0.9⟩
    (Or.inl rfl)

/-- C4: when no classifier outcome has verdict `true`, the arbitration
result is labelled `Unclear` and copies confidence and reasoning from an
outcome that has the highest confidence among all three outcomes and
precedes every equal-confidence outcome in the fixed precedence order. -/
theorem arbitration_unclear_best (bug feat ref : ClassifierResult)
    (h : bug.result = false ∧ feat.result = false ∧ ref.result = false) :
    ∃ w ∈ candidatesOf bug feat ref,
      arbitrate bug feat ref = ⟨.unclear, w.confidence, w.reasoning⟩ ∧
      (∀ c ∈ candidatesOf bug feat ref, c.confidence ≤ w.confidence) ∧
      (∀ c ∈ candidatesOf bug feat ref, c.confidence = w.confidence →
        precIdx w.label ≤ precIdx c.label) := by
  obtain ⟨hbug, hfeat, href⟩ := h
  have ht : trueOnesOf bug feat ref = [] := by
    simp [trueOnesOf, candidatesOf, tagged, hbug, hfeat, href]
  obtain ⟨hmem, hmax, htie⟩ :=
    top3_pick (tagged .bugFix bug) (tagged .feature feat) (tagged .refactor ref)
      (by norm_num [tagged, precIdx]) (by norm_num [tagged, precIdx])
      (by norm_num [tagged, precIdx])
  refine ⟨top3 (tagged .bugFix bug) (tagged .feature feat) (tagged .refactor ref),
    by simpa [candidatesOf] using hmem, arbitrate_trueOnes_none ht, ?_, ?_⟩
  · intro c hc
    exact hmax c (by simpa [candidatesOf] using hc)
  · intro c hc
    exact htie c (by simpa [candidatesOf] using hc)

theorem arbitration_unclear_best_witness :
    ∃ w ∈ candidatesOf ⟨"a".data, false, 0.9⟩ ⟨"b".data, false, 0.6⟩ ⟨"c".data, false, 0.3⟩,
      arbitrate ⟨"a".data, false, 0.9⟩ ⟨"b".data, false, 0.6⟩ ⟨"c".data, false, 0.3⟩ =
        ⟨.unclear, w.confidence, w.reasoning⟩ ∧
      (∀ c ∈ candidatesOf ⟨"a".data, false, 0.9⟩ ⟨"b".data, false, 0.6⟩
          ⟨"c".data, false, 0.3⟩, c.confidence ≤ w.confidence) ∧
      (∀ c ∈ candidatesOf ⟨"a".data, false, 0.9⟩ ⟨"b".data, false, 0.6⟩
          ⟨"c".data, false, 0.3⟩,
        c.confidence = w.confidence → precIdx w.label ≤ precIdx c.label) :=
  arbitration_unclear_best ⟨"a".data, false, 0.9⟩ ⟨"b".data, false, 0.6⟩
    ⟨"c".data, false, 0.3⟩ ⟨rfl, rfl, rfl⟩

/-- C2: at most one classification cycle is in flight at any time (any event
sequence from the initial state keeps `inFlight ≤ 1`), and any number
`n ≥ 1` of trigger calls arriving while a cycle is running leads to exactly
one follow-up cycle once the running cycle completes — never `n`. -/
theorem single_flight_coalescing (evs : List SchedEv) (n : Nat) (hn : 1 ≤ n) :
    (runSched ⟨0, false⟩ evs).1.inFlight ≤ 1 ∧
    runSched ⟨1, false⟩ (List.replicate n .trigger ++ [.complete]) = (⟨1, false⟩, 1) := by
  refine ⟨runSched_inFlight_le (by simp) evs, ?_⟩
  obtain ⟨m, rfl⟩ : ∃ m, n = m + 1 := ⟨n - 1, by omega⟩
  simp only [List.replicate_succ, List.cons_append, runSched, stepSched]
  simpa using runSched_busy_triggers m

theorem single_flight_coalescing_witness :
    (runSched ⟨0, false⟩ [.trigger, .trigger, .complete]).1.inFlight ≤ 1 ∧
    runSched ⟨1, false⟩ (List.replicate 3 .trigger ++ [.complete]) = (⟨1, false⟩, 1) :=
  single_flight_coalescing [.trigger, .trigger, .complete] 3 (by decide)

/-- C8: a classifier call whose response fails JSON parsing (`none`) or
schema validation returns the degraded default — verdict `false`,
confidence `0`, a parse-failure reasoning — and the surrounding port call
yields it as a success, never as an error. -/
theorem parse_failure_degraded (response : Option JsonVal)
    (h : response >>= classifierSchemaParse = none) :
    runClassifier response = parseFailureDefault ∧
    classifierPortCall (.ok response) = .ok parseFailureDefault ∧
    parseFailureDefault.result = false ∧
    parseFailureDefault.confidence = 0 ∧
    parseFailureDefault.reasoning = "Failed to parse LLM output.".data := by
  have hrun : runClassifier response = parseFailureDefault := by
    unfold runClassifier
    rw [h]
  exact ⟨hrun, by simp [classifierPortCall, hrun], rfl, rfl, rfl⟩

theorem parse_failure_degraded_witness :
    runClassifier (some (.str "not a schema object".data)) = parseFailureDefault ∧
    classifierPortCall (.ok (some (.str "not a schema object".data))) = .ok parseFailureDefault ∧
    parseFailureDefault.result = false ∧
    parseFailureDefault.confidence = 0 ∧
    parseFailureDefault.reasoning = "Failed to parse LLM output.".data :=
  parse_failure_degraded (some (.str "not a schema object".data)) (by rfl)

/-- C9: a cycle whose cleaned change text is empty ends as a no-op — the
outcome is independent of the classifier ports (none is consulted), nothing
is published, no error is raised, and the stored fingerprint is untouched;
a fetch failure (`execFile` error or missing workspace folder) produces the
empty raw text and hence the same no-op. -/
theorem empty_cleaned_noop (hash : Str → Str) (last : Option Str) (raw : Str)
    (genBug genFeat genRef : Except Unit (Option JsonVal))
    (h : (trimStr (preprocessDiff raw)).isEmpty = true) :
    runCycle hash last raw genBug genFeat genRef = (last, .noop) ∧
    (∀ (folder : Option Unit) (e : Unit) (gb gf gr : Except Unit (Option JsonVal)),
      runCycle hash last (getWorkingDiffText folder (.error e)) gb gf gr = (last, .noop)) := by
  constructor
  · unfold runCycle
    rw [if_pos h]
  · intro folder e gb gf gr
    have hraw : getWorkingDiffText folder (.error e) = [] := by
      cases folder <;> rfl
    rw [hraw]
    unfold runCycle
    rw [if_pos (by decide)]

theorem empty_cleaned_noop_witness :
    runCycle id none "  \n ".data (.ok none) (.ok none) (.ok none) = (none, .noop) ∧
    (∀ (folder : Option Unit) (e : Unit) (gb gf gr : Except Unit (Option JsonVal)),
      runCycle id none (getWorkingDiffText folder (.error e)) gb gf gr = (none, .noop)) :=
  empty_cleaned_noop id none "  \n ".data (.ok none) (.ok none) (.ok none) (by decide)

/-- C10: every value the public classifier functions return — via
successful schema validation or via the parse-failure fallback — has a
boolean `result` field and a `confidence` in the closed interval `[0, 1]`. -/
theorem classifier_result_wellformed (response : Option JsonVal) :
    ((classifyAsBugFix response).result = true ∨ (classifyAsBugFix response).result = false) ∧
    0 ≤ (classifyAsBugFix response).confidence ∧ (classifyAsBugFix response).confidence ≤ 1 ∧
    ((classifyAsFeature response).result = true ∨ (classifyAsFeature response).result = false) ∧
    0 ≤ (classifyAsFeature response).confidence ∧ (classifyAsFeature response).confidence ≤ 1 ∧
    ((classifyAsRefactoring response).result = true ∨ (classifyAsRefactoring response).result = false) ∧
    0 ≤ (classifyAsRefactoring response).confidence ∧
    (classifyAsRefactoring response).confidence ≤ 1 := by
  have hbounds : 0 ≤ (runClassifier response).confidence ∧
      (runClassifier response).confidence ≤ 1 := by
    rcases hr : response >>= classifierSchemaParse with _ | r
    · unfold runClassifier
      rw [hr]
      exact ⟨le_refl 0, by norm_num [parseFailureDefault]⟩
    · unfold runClassifier
      rw [hr]
      cases response with
      | none => simp at hr
      | some v => exact schemaParse_bounds (by simpa using hr)
  exact ⟨Or.symm (Bool.dichotomy _), hbounds.1, hbounds.2, Or.symm (Bool.dichotomy _),
    hbounds.1, hbounds.2, Or.symm (Bool.dichotomy _), hbounds.1, hbounds.2⟩

/-- C7 counterexample: the single line `"index Binary files"` contains the
binary-files notice, yet `preprocessDiff` returns the empty string, not the
sentinel — the line is discarded by the `index `-prefix skip before the
binary check is reached. -/
theorem binary_marker_index_cex :
    containsStr "index Binary files".data "Binary files".data = true ∧
    preprocessDiff "index Binary files".data = [] ∧
    preprocessDiff "index Binary files".data ≠ binarySentinel := by
  refine ⟨by decide, by decide, by decide⟩

/-- C7 (amended): if some line of the input is a binary marker (begins with
the GIT binary patch marker or contains the binary-files notice) *and does
not begin with `"index "`* (such lines are skipped before the binary check),
then `preprocessDiff` returns the fixed sentinel, regardless of the other
lines present. -/
theorem binary_marker_sentinel (raw line : Str)
    (hmem : line ∈ splitLines raw)
    (hidx : startsWithStr line "index ".data = false)
    (hbin : (startsWithStr line "GIT binary patch".data ||
             containsStr line "Binary files".data) = true) :
    preprocessDiff raw = binarySentinel := by
  have hnonws : ∃ c ∈ line, c.isWhitespace = false := by
    rcases (by simpa using hbin :
        startsWithStr line "GIT binary patch".data = true ∨
        containsStr line "Binary files".data = true) with h | h
    · exact ⟨'G', startsWith_subset h 'G' (by decide), by decide⟩
    · exact ⟨'B', containsStr_subset h 'B' (by decide), by decide⟩
  obtain ⟨c, hcl, hcw⟩ := hnonws
  have hcraw : c ∈ raw := by
    rcases splitLinesAux_chars c raw [] line hmem hcl with h | h
    · cases h
    · exact h
  have htrim : (trimStr raw).isEmpty = false := trimStr_nonempty hcraw hcw
  unfold preprocessDiff
  rw [if_neg (by simp [htrim]), preprocessLines_of_marker hmem hidx hbin]

theorem binary_marker_sentinel_witness :
    preprocessDiff "diff --git a/x b/x\nGIT binary patch\nliteral 48".data = binarySentinel :=
  binary_marker_sentinel "diff --git a/x b/x\nGIT binary patch\nliteral 48".data
    "GIT binary patch".data (by decide) (by decide) (by decide)

/-- C3 counterexample: with the Bug Fix port rejecting and the other two
ports succeeding, the cycle ends in failure and publishes nothing — the
partial set of successful outcomes is *not* passed to arbitration, and the
fan-out reports failure although not every port failed. -/
theorem fanout_partial_failure_cex :
    (runCycle id none "+x".data (.error ()) (.ok none) (.ok none)).2 = .failed ∧
    publishCount (runCycle id none "+x".data (.error ()) (.ok none) (.ok none)).2 = 0 := by
  refine ⟨by decide, by decide⟩

/-- C3 (amended): the `Promise.all` fan-out is all-or-nothing — if any of
the three classifier calls rejects, the whole cycle ends in failure without
arbitration or publication; outcomes reach arbitration exactly when all
three calls succeed. -/
theorem fanout_all_or_nothing (hash : Str → Str) (last : Option Str) (raw : Str)
    (genBug genFeat genRef : Except Unit (Option JsonVal))
    (hne : (trimStr (preprocessDiff raw)).isEmpty = false)
    (hfp : some (hash (preprocessDiff raw)) ≠ last) :
    ((genBug = .error () ∨ genFeat = .error () ∨ genRef = .error ()) →
      runCycle hash last raw genBug genFeat genRef =
        (some (hash (preprocessDiff raw)), .failed)) ∧
    (∀ rb rf rr : Option JsonVal, genBug = .ok rb → genFeat = .ok rf → genRef = .ok rr →
      runCycle hash last raw genBug genFeat genRef =
        (some (hash (preprocessDiff raw)),
         .published (arbitrate (runClassifier rb) (runClassifier rf) (runClassifier rr)))) := by
  constructor
  · exact fun h => runCycle_fails hne hfp h
  · intro rb rf rr hb hf hr
    subst hb hf hr
    exact runCycle_publishes rb rf rr hne hfp

theorem fanout_all_or_nothing_witness :
    runCycle id none "+x".data (.error ()) (.ok none) (.ok none) =
      (some "+x".data, .failed) :=
  (fanout_all_or_nothing id none "+x".data (.error ()) (.ok none) (.ok none)
    (by decide) (by decide)).1 (Or.inl rfl)

/-- C5 counterexample: for the empty cleaned text, two consecutive cycles
that both observe it (raw text `""`, all classifier calls succeeding)
produce zero publish calls, not exactly one — the claim fails for the
cleaned text `""`. -/
theorem dedup_empty_cex :
    preprocessDiff [] = [] ∧
    publishCount (runCycle id none [] (.ok none) (.ok none) (.ok none)).2 +
      publishCount (runCycle id (runCycle id none [] (.ok none) (.ok none) (.ok none)).1 []
        (.ok none) (.ok none) (.ok none)).2 = 0 := by
  refine ⟨by decide, by decide⟩

/-- C5 (amended): for every cleaned text C that is nonempty after trimming,
starting from a stored fingerprint different from C's and with the first
cycle's fan-out succeeding, two consecutive cycles both observing C produce
exactly one publish: the first publishes and stores C's fingerprint, the
second finds its fingerprint equal to the stored one and ends as a dedup
no-op without publishing. -/
theorem dedup_publish_once (hash : Str → Str) (last : Option Str) (raw1 raw2 : Str)
    (gb2 gf2 gr2 : Except Unit (Option JsonVal)) (rb rf rr : Option JsonVal)
    (hC : preprocessDiff raw2 = preprocessDiff raw1)
    (hne : (trimStr (preprocessDiff raw1)).isEmpty = false)
    (hfp : some (hash (preprocessDiff raw1)) ≠ last) :
    publishCount (runCycle hash last raw1 (.ok rb) (.ok rf) (.ok rr)).2 +
      publishCount (runCycle hash (runCycle hash last raw1 (.ok rb) (.ok rf) (.ok rr)).1
        raw2 gb2 gf2 gr2).2 = 1 ∧
    (runCycle hash (runCycle hash last raw1 (.ok rb) (.ok rf) (.ok rr)).1
      raw2 gb2 gf2 gr2).2 = .noop ∧
    (runCycle hash last raw1 (.ok rb) (.ok rf) (.ok rr)).1 =
      some (hash (preprocessDiff raw2)) := by
  have h1 := runCycle_publishes rb rf rr hne hfp
  have hfst : (runCycle hash last raw1 (.ok rb) (.ok rf) (.ok rr)).1 =
      some (hash (preprocessDiff raw1)) := by rw [h1]
  have h2 : runCycle hash (runCycle hash last raw1 (.ok rb) (.ok rf) (.ok rr)).1
      raw2 gb2 gf2 gr2 = ((runCycle hash last raw1 (.ok rb) (.ok rf) (.ok rr)).1, .noop) := by
    rw [hfst]
    exact runCycle_dedup gb2 gf2 gr2 (by rw [hC])
  refine ⟨?_, by rw [h2], by rw [hfst, hC]⟩
  rw [h2, h1]
  rfl

theorem dedup_publish_once_witness :
    publishCount (runCycle id none "+x".data (.ok none) (.ok none) (.ok none)).2 +
      publishCount (runCycle id (runCycle id none "+x".data (.ok none) (.ok none) (.ok none)).1
        "+x".data (.ok none) (.ok none) (.ok none)).2 = 1 ∧
    (runCycle id (runCycle id none "+x".data (.ok none) (.ok none) (.ok none)).1
      "+x".data (.ok none) (.ok none) (.ok none)).2 = .noop ∧
    (runCycle id none "+x".data (.ok none) (.ok none) (.ok none)).1 =
      some (id (preprocessDiff "+x".data)) :=
  dedup_publish_once id none "+x".data "+x".data (.ok none) (.ok none) (.ok none)
    none none none rfl (by decide) (by decide)

/-- C6 counterexample: a cycle whose fan-out fails (Bug Fix port rejects)
*does* change `lastFingerprint` (from `none` to the new fingerprint,
assigned before the fan-out), and a subsequent cycle observing the same
cleaned text *is* deduplicated away as a no-op with no publish. -/
theorem fingerprint_failed_cycle_cex :
    (runCycle id none "+x".data (.error ()) (.ok none) (.ok none)).1 = some "+x".data ∧
    (runCycle id (runCycle id none "+x".data (.error ()) (.ok none) (.ok none)).1 "+x".data
      (.ok none) (.ok none) (.ok none)).2 = .noop ∧
    publishCount (runCycle id (runCycle id none "+x".data (.error ()) (.ok none) (.ok none)).1
      "+x".data (.ok none) (.ok none) (.ok none)).2 = 0 := by
  refine ⟨by decide, by decide, by decide⟩

/-- C6 (amended): `lastFingerprint` is updated mid-cycle, immediately after
the dedup check and *before* the classification fan-out: every cycle that
passes the empty-text and dedup checks stores the new fingerprint whether
its fan-out succeeds or fails, so a subsequent cycle observing the same
cleaned text is deduplicated away as a no-op; it therefore reflects the
last *attempted* (nonempty, non-duplicate) cleaned text, not the last
successful cycle. -/
theorem fingerprint_updated_before_fanout (hash : Str → Str) (last : Option Str) (raw : Str)
    (gb gf gr gb' gf' gr' : Except Unit (Option JsonVal))
    (hne : (trimStr (preprocessDiff raw)).isEmpty = false)
    (hfp : some (hash (preprocessDiff raw)) ≠ last) :
    (runCycle hash last raw gb gf gr).1 = some (hash (preprocessDiff raw)) ∧
    runCycle hash (runCycle hash last raw gb gf gr).1 raw gb' gf' gr' =
      ((runCycle hash last raw gb gf gr).1, .noop) := by
  have h1 := runCycle_fp_set gb gf gr hne hfp
  refine ⟨h1, ?_⟩
  rw [h1]
  exact runCycle_dedup gb' gf' gr' rfl

theorem fingerprint_updated_before_fanout_witness :
    (runCycle id none "+y".data (.error ()) (.ok none) (.ok none)).1 =
      some (id (preprocessDiff "+y".data)) ∧
    runCycle id (runCycle id none "+y".data (.error ()) (.ok none) (.ok none)).1 "+y".data
      (.ok none) (.ok none) (.ok none) =
      ((runCycle id none "+y".data (.error ()) (.ok none) (.ok none)).1, .noop) :=
  fingerprint_updated_before_fanout id none "+y".data (.error ()) (.ok none) (.ok none)
    (.ok none) (.ok none) (.ok none) (by decide) (by decide)

end Committed
